import Mathlib

/-!
Verification development for the NCAA D1 baseball forecasting pipeline:
shallow embedding of the entity-resolution engine
(`src/ncaa_baseball/phase1.py`, `scripts/build_todays_starters.py`),
the sequential Elo fitter (`scripts/fit_phase1_elo.py`), the pitcher
rating / bullpen-workload builder (`scripts/build_pitcher_ratings.py`),
and the market blend (`src/ncaa_baseball/pitcher_model.py`).

Modelling conventions:
* Python `float` arithmetic is modelled as exact arithmetic: `ℚ` where only
  field operations occur, `ℝ` where `10 ** x` (real exponentiation) occurs.
* Python strings are modelled as Lean `String`, with the string operations
  reimplemented by structural recursion over `String.data` so that concrete
  evaluation reduces in the kernel.  `html.unescape`, Unicode NFKD
  decomposition and the `’` replacement in `normalize_text` are the identity
  on ASCII data and are omitted: the embedding is at the ASCII level.
* A pandas DataFrame is a `List` of row structures; a CSV `NaN`/empty cell
  is `Option.none` (pandas reads empty cells as NaN).
* Python `dict` accumulation is modelled with insertion-ordered association
  lists or total functions updated pointwise, matching dict semantics
  (key order = first insertion, value = last write).
-/

/-! ### String primitives (structural replacements for library functions) -/

/-- Split a character list at characters satisfying `p` (keeping empty chunks). -/
def splitChars (p : Char → Bool) (l : List Char) : List (List Char) :=
  l.foldr (fun c acc =>
    if p c then [] :: acc
    else match acc with
      | [] => [[c]]
      | t :: ts => (c :: t) :: ts) [[]]

/-- Python `str.split()` with no argument: split on whitespace runs, dropping
empty chunks. -/
def splitWs (s : String) : List String :=
  ((splitChars (·.isWhitespace) s.data).filter (· ≠ [])).map (fun l => String.mk l)

/-- Lowercase every character (ASCII case mapping, as in `str.lower` on ASCII). -/
def strLower (s : String) : String := String.mk (s.data.map Char.toLower)

/-- Replace every (non-overlapping, leftmost-first) occurrence of `pat`,
fuel-bounded structural recursion; `fuel = length of the list` suffices
because each step consumes at least one character. -/
def replaceFuel (pat rep : List Char) : Nat → List Char → List Char
  | 0, l => l
  | _ + 1, [] => []
  | fuel + 1, c :: rest =>
    if pat.isPrefixOf (c :: rest) then rep ++ replaceFuel pat rep fuel ((c :: rest).drop pat.length)
    else c :: replaceFuel pat rep fuel rest

/-- Python `str.replace(pat, rep)` for a non-empty `pat` (every use below has a
non-empty literal pattern). -/
def strReplace (s pat rep : String) : String :=
  if pat.data.isEmpty then s else String.mk (replaceFuel pat.data rep.data s.data.length s.data)

/-- Python `str.startswith`. -/
def strStartsWith (s pre : String) : Bool := pre.data.isPrefixOf s.data

/-- Python `str.strip()` (whitespace on both ends). -/
def strTrim (s : String) : String :=
  String.mk (((s.data.dropWhile (·.isWhitespace)).reverse.dropWhile (·.isWhitespace)).reverse)

/-- String length as the length of the character list. -/
def strLen (s : String) : Nat := s.data.length

/-- Python `" ".join(s.split())`: collapse internal whitespace and strip. -/
def collapseWs (s : String) : String := " ".intercalate (splitWs s)

/-! ### Name normalizer (`build_todays_starters.normalize_text` and friends) -/

/-- `normalize_text`: lowercase, `&` → `" and "`, `"st."` → `"st"`, strip
punctuation to spaces, collapse whitespace.  (HTML unescaping, NFKD stripping
and the `’` → `'` replacement are identity on ASCII input and are omitted.) -/
def normalize_text (s : String) : String :=
  let s1 := strReplace (strLower s) "&" " and "
  let s2 := strReplace s1 "st." "st"
  let s3 := String.mk (s2.data.map (fun c =>
    if ('a' ≤ c ∧ c ≤ 'z') ∨ ('0' ≤ c ∧ c ≤ '9') ∨ c = ' ' then c else ' '))
  collapseWs s3

/-- The closed set of mascot-ish suffix words stripped by `normalize_team_name`. -/
def suffix_words : List String :=
  ["bulldogs", "wildcats", "tigers", "razorbacks", "longhorns", "aggies",
   "cardinals", "trojans", "warriors", "spartans", "panthers", "bears",
   "knights", "titans", "huskies", "hawks", "eagles", "owls", "pirates",
   "rams", "lions", "bobcats", "mustangs", "rebels", "gators", "seminoles",
   "volunteers", "bluejays", "dons", "broncos", "vikings", "blazers",
   "mountaineers", "colonials", "cougars", "gaels", "terriers", "bearcats"]

/-- `normalize_team_name`: `normalize_text`, then drop a trailing mascot word
when there are at least two tokens. -/
def normalize_team_name (s : String) : String :=
  let n := normalize_text s
  let parts := splitWs n
  match parts.getLast? with
  | some w => if 2 ≤ parts.length ∧ w ∈ suffix_words then " ".intercalate parts.dropLast else n
  | none => n

/-- Token-level synonym table (`token_alts` in `_team_forms_from_norm`). -/
def token_alts : String → List String
  | "st" => ["state", "saint"]
  | "state" => ["st"]
  | "saint" => ["st"]
  | "fla" => ["florida"]
  | "ga" => ["georgia"]
  | "ky" => ["kentucky"]
  | "intl" => ["international"]
  | "ft" => ["fort"]
  | "mt" => ["mount"]
  | _ => []

/-- Acronym expansion table (`acronym_alts` in `_team_forms_from_norm`). -/
def acronym_alts : String → List String
  | "fiu" => ["florida international"]
  | "fgcu" => ["florida gulf coast"]
  | "ucf" => ["central florida"]
  | "uic" => ["illinois chicago"]
  | "umbc" => ["maryland baltimore county"]
  | "umes" => ["maryland eastern shore"]
  | "uncw" => ["north carolina wilmington"]
  | "utsa" => ["texas san antonio"]
  | "utrgv" => ["texas rio grande valley"]
  | "dbu" => ["dallas baptist"]
  | "etsu" => ["east tennessee state"]
  | "siue" => ["southern illinois edwardsville"]
  | "sfa" => ["stephen f austin"]
  | "csun" => ["cal state northridge"]
  | "liu" => ["long island"]
  | "njit" => ["new jersey institute of technology"]
  | "usc" => ["south carolina", "southern california"]
  | _ => []

/-- `_team_forms_from_norm`: the normalized name itself plus every single-token
substitution from the synonym/acronym tables.  The Python set is modelled as a
list (membership is all that is consumed downstream). -/
def team_forms_from_norm (norm_name : String) : List String :=
  let tokens := splitWs norm_name
  if tokens.isEmpty then [norm_name]
  else
    let subs := (List.range tokens.length).flatMap (fun i =>
      let tok := tokens.getD i ""
      (token_alts tok ++ acronym_alts tok).map (fun alt =>
        " ".intercalate (tokens.take i ++ splitWs alt ++ tokens.drop (i + 1))))
    (norm_name :: subs).filter (· ≠ "")

/-! ### Canonical registry rows and the name index -/

/-- One row of the canonical team registry (`canonical_teams_2026.csv`).
`ncaa_teams_id` is an integer (the registry build fails hard on unparsable
ids, so the `try/except int` guard of the source never fires on loadable
registries and is not modelled). -/
structure TeamRow where
  canonical_id : String
  ncaa_teams_id : ℤ
  team_name : String
  odds_api_name : String
deriving DecidableEq, Repr

/-- A candidate produced by the canonical-name index:
(canonical_id, ncaa_teams_id, stripped team_name). -/
abbrev Cand := String × ℤ × String

/-- The index entry a registry row contributes under form `f`
(`build_canonical_name_index`): skip blank canonical ids, index the row under
every normalized-name variant. -/
def indexEntry (f : String) (r : TeamRow) : Option Cand :=
  let cid := strTrim r.canonical_id
  if cid = "" then none
  else
    let tname := strTrim r.team_name
    if f ∈ team_forms_from_norm (normalize_team_name tname) then some (cid, r.ncaa_teams_id, tname)
    else none

/-- Lookup in the canonical-name index built by `build_canonical_name_index`:
all rows (in registry order) indexed under form `f`. -/
def indexLookup (canonical : List TeamRow) (f : String) : List Cand :=
  canonical.filterMap (indexEntry f)

/-- Distinct keys in first-appearance order (Python dict key order). -/
def dedupKeys (l : List String) : List String :=
  l.foldl (fun acc k => if k ∈ acc then acc else acc ++ [k]) []

/-- The last candidate carrying canonical id `k` (Python dict value = last write). -/
def lastWithCid (l : List Cand) (k : String) : Option Cand :=
  l.reverse.find? (fun c => c.1 == k)

/-- De-duplicate candidates by canonical id, with Python dict semantics:
keys in first-appearance order, value is the last candidate for that key. -/
def dedupByCid (l : List Cand) : List Cand :=
  (dedupKeys (l.map (·.1))).filterMap (lastWithCid l)

/-- Tie-break key: length of the candidate's own normalized team name. -/
def tieKey (c : Cand) : Nat := strLen (normalize_team_name c.2.2)

/-- First candidate with maximal `tieKey` (= head of a stable descending sort,
as in `sorted(cand, key=lambda x: -len(...))[0]`). -/
def tieBreakCand (c : Cand) (cs : List Cand) : Cand :=
  cs.foldl (fun best x => if tieKey best < tieKey x then x else best) c

/-! ### `phase1.py` odds-name resolver -/

/-- `_normalize_for_match`: `&amp;` → `&`, `&#39;` → apostrophe, lowercase,
collapse whitespace. -/
def normalize_for_match (s : String) : String :=
  collapseWs (strLower (strReplace (strReplace s "&amp;" "&") "&#39;" "\x27"))

/-- Lookup in the odds-name crosswalk map (keys are unique by construction). -/
def lookupNameMap (m : List (String × String × ℤ)) (k : String) : Option (String × ℤ) :=
  (m.find? (fun p => p.1 == k)).map (·.2)

/-- `build_odds_name_to_canonical`: map normalized `odds_api_name` to
(canonical_id, ncaa_teams_id); a later row overwrites an earlier duplicate key. -/
def build_odds_name_to_canonical (canonical : List TeamRow) : List (String × String × ℤ) :=
  canonical.foldl (fun acc r =>
    let o := strTrim r.odds_api_name
    if o = "" then acc
    else
      let k := normalize_for_match o
      (acc.filter (fun p => p.1 ≠ k)) ++ [(k, r.canonical_id, r.ncaa_teams_id)]) []

/-- Insert a row into a list sorted by descending stripped-team-name length
(stable: equal lengths keep earlier rows first). -/
def insertRowByLen (r : TeamRow) : List TeamRow → List TeamRow
  | [] => [r]
  | x :: xs => if strLen (strTrim x.team_name) < strLen (strTrim r.team_name)
               then r :: x :: xs
               else x :: insertRowByLen r xs

/-- `rows_sorted` of `resolve_odds_teams.resolve_one`: rows with non-blank
stripped team names, sorted by descending stripped-name length (stable). -/
def rowsSortedByNameLen (canonical : List TeamRow) : List TeamRow :=
  (canonical.filter (fun r => strTrim r.team_name ≠ "")).foldr insertRowByLen []

/-- The prefix-matching loop of `resolve_one`: forward rule
(`n == norm_name` or `n` starts with `norm_name + " "`), then the reverse
prefix rule (`norm_name` starts with `n` and `len(n) >= len(norm_name) - 2`). -/
def resolve_one_loop (n : String) : List TeamRow → Option (String × ℤ)
  | [] => none
  | r :: rest =>
    let norm_name := normalize_for_match (strTrim r.team_name)
    if strStartsWith n (norm_name ++ " ") = true ∨ n = norm_name then
      some (r.canonical_id, r.ncaa_teams_id)
    else if strStartsWith norm_name n = true ∧ ((strLen n : ℤ) ≥ (strLen norm_name : ℤ) - 2) then
      some (r.canonical_id, r.ncaa_teams_id)
    else resolve_one_loop n rest

/-- `resolve_one` inside `resolve_odds_teams`: exact crosswalk lookup first,
then the prefix loop over length-sorted registry rows. -/
def resolve_one (canonical : List TeamRow) (name_to_canonical : List (String × String × ℤ))
    (odds_name : String) : Option (String × ℤ) :=
  let n := normalize_for_match odds_name
  match lookupNameMap name_to_canonical n with
  | some v => some v
  | none => resolve_one_loop n (rowsSortedByNameLen canonical)

/-- `resolve_odds_teams`: resolve both sides independently. -/
def resolve_odds_teams (home_odds_name away_odds_name : String)
    (canonical : List TeamRow) (name_to_canonical : List (String × String × ℤ)) :
    Option (String × ℤ) × Option (String × ℤ) :=
  (resolve_one canonical name_to_canonical home_odds_name,
   resolve_one canonical name_to_canonical away_odds_name)

/-! ### `build_todays_starters.resolve_team_name_to_canonical` -/

/-- The suffix-peeling loop: repeatedly drop the last token and retry the
multi-form index lookup, accepting only a unique candidate.  Structured with
a fuel argument (`fuel = token count` suffices: each iteration drops one
token). -/
def peel_loop (canonical : List TeamRow) : Nat → List String → Option (String × ℤ)
  | 0, _ => none
  | fuel + 1, toks =>
    if 1 < toks.length then
      let toks' := toks.dropLast
      match dedupByCid ((team_forms_from_norm (" ".intercalate toks')).flatMap
          (indexLookup canonical)) with
      | [c] => some (c.1, c.2.1)
      | _ => peel_loop canonical fuel toks'
    else none

/-- The fallback branch of `resolve_team_name_to_canonical`: delegate to
`resolve_odds_teams`, then reject a prefix-only over-match (the resolved row's
normalized name is a strict token-prefix of the input). -/
def fallback_resolve (canonical : List TeamRow) (name_to_canonical : List (String × String × ℤ))
    (team_name : String) (n : String) : Option (String × ℤ) :=
  match (resolve_odds_teams team_name team_name canonical name_to_canonical).1 with
  | none => none
  | some t =>
    match canonical.find? (fun r => r.canonical_id == t.1) with
    | none => some t
    | some row =>
      let c_norm := normalize_team_name (strTrim row.team_name)
      if c_norm ≠ "" ∧ strStartsWith n (c_norm ++ " ") = true ∧
          (splitWs c_norm).length < (splitWs n).length then none
      else some t

/-- `resolve_team_name_to_canonical`: multi-form index lookup with unique
acceptance, longest-normalized-name tie-break, suffix peeling, then the
odds-style fallback with over-match rejection. -/
def resolve_team_name_to_canonical (team_name : String) (canonical : List TeamRow)
    (name_to_canonical : List (String × String × ℤ)) : Option (String × ℤ) :=
  let n := normalize_team_name team_name
  if n = "" then fallback_resolve canonical name_to_canonical team_name n
  else
    match dedupByCid ((team_forms_from_norm n).flatMap (indexLookup canonical)) with
    | [c] => some (c.1, c.2.1)
    | [] =>
      match peel_loop canonical (splitWs n).length (splitWs n) with
      | some t => some t
      | none => fallback_resolve canonical name_to_canonical team_name n
    | c :: c' :: rest => some ((tieBreakCand c (c' :: rest)).1, (tieBreakCand c (c' :: rest)).2.1)

-- Sanity checks for the normalizer on concrete registry strings.
example : normalize_team_name "Florida International" = "florida international" := by decide
example : normalize_team_name "Florida" = "florida" := by decide
example : normalize_team_name "Florida Gators" = "florida" := by decide
example : team_forms_from_norm "florida international" = ["florida international"] := by decide
example : team_forms_from_norm "fiu" = ["fiu", "florida international"] := by decide

/-! ### Sequential Elo fitter (`scripts/fit_phase1_elo.py`) -/

/-- Pointwise update of a total function (a Python dict write). -/
def updF {α : Type} (f : String → α) (k : String) (v : α) : String → α :=
  fun x => if x = k then v else f x

/-- The mutable state of `fit_elo`: the `ratings` and `n_games` dicts.
`mem` tracks key presence in `ratings`; absent keys carry the defaults the
source reads through `dict.get(cid, 0)`. -/
structure EloState where
  mem : String → Bool
  r : String → ℝ
  n : String → ℤ

/-- Both dicts start empty. -/
def emptyElo : EloState := ⟨fun _ => false, fun _ => 0, fun _ => 0⟩

/-- `get_rating`: read the rating, initializing an unseen team to `initial`
with a game count of 0. -/
def get_rating (initial : ℝ) (s : EloState) (cid : String) : ℝ × EloState :=
  if s.mem cid then (s.r cid, s)
  else (initial, ⟨updF s.mem cid true, updF s.r cid initial, updF s.n cid 0⟩)

/-- `elo_expected`: logistic expected score for the home team. -/
noncomputable def elo_expected (home_rating away_rating home_adv : ℝ) : ℝ :=
  1 / (1 + (10 : ℝ) ^ ((away_rating - (home_rating + home_adv)) / 400))

/-- One row of the games table.  `home`/`away` are the canonical ids, `none`
when the id column is NaN (missing or written as an empty CSV cell).
`winnerHome` is the integer `winner_home` column. -/
structure EloGame where
  date : ℤ
  home : Option String
  away : Option String
  winnerHome : ℤ
deriving DecidableEq

/-- The body of the `fit_elo` loop for one game with resolved ids `h`, `a`:
read both pre-game ratings (initializing as needed), then write both new
ratings and bump both game counts, in source order. -/
noncomputable def eloStep (k home_advantage initial : ℝ) (s : EloState) (h a : String)
    (w : ℤ) : EloState :=
  let p1 := get_rating initial s h
  let p2 := get_rating initial p1.2 a
  let r_h := p1.1
  let r_a := p2.1
  let s2 := p2.2
  let exp_h := elo_expected r_h r_a home_advantage
  let actual_h : ℝ := (w : ℝ)
  let r3 := updF (updF s2.r h (r_h + k * (actual_h - exp_h))) a
    (r_a + k * ((1 - actual_h) - (1 - exp_h)))
  let n1 := updF s2.n h (s2.n h + 1)
  let n3 := updF n1 a (n1 a + 1)
  ⟨s2.mem, r3, n3⟩

/-- Stable insertion into a list sorted by non-decreasing date. -/
def insertByDate (g : EloGame) : List EloGame → List EloGame
  | [] => [g]
  | x :: xs => if g.date ≤ x.date then g :: x :: xs else x :: insertByDate g xs

/-- Sort games by date.  (The source's `sort_values("date")` fixes only the
non-decreasing date order; this model uses a deterministic stable sort.) -/
def sortByDate (games : List EloGame) : List EloGame :=
  games.foldr insertByDate []

/-- `fit_elo`: drop games with a missing canonical id on either side, sort by
date, and fold the Elo update over the remaining games. -/
noncomputable def fit_elo (k home_advantage initial : ℝ) (games : List EloGame) : EloState :=
  let kept := games.filter (fun g => g.home.isSome && g.away.isSome)
  (sortByDate kept).foldl (fun s g =>
    match g.home, g.away with
    | some h, some a => eloStep k home_advantage initial s h a g.winnerHome
    | _, _ => s) emptyElo

/-- The pre-game rating pair read at the top of the loop body (both reads
happen before either write). -/
def preRatings (initial : ℝ) (s : EloState) (h a : String) : ℝ × ℝ :=
  let p1 := get_rating initial s h
  let p2 := get_rating initial p1.2 a
  (p1.1, p2.1)

/-! ### Pitcher ratings, shrinkage and bullpen workload
(`scripts/build_pitcher_ratings.py`) -/

/-- One row of `pitching_lines_espn.csv` after numeric coercion: `none` models
a NaN cell. Dates are calendar days (normalized timestamps) as integers. -/
structure PitchingLine where
  pitcher_espn_id : String
  canonical_id : String
  season : ℤ
  game_date : Option ℤ
  ip : Option ℚ
  er : Option ℚ
  runs : Option ℚ
  pc : Option ℚ
  starter : Option Bool
deriving DecidableEq

/-- `MIN_IP_FOR_RATING = 0.1`. -/
def MIN_IP_FOR_RATING : ℚ := 1 / 10

/-- `LEAGUE_RA9_DEFAULT = 5.5`. -/
def LEAGUE_RA9_DEFAULT : ℚ := 11 / 2

/-- The row filter of `build_pitcher_ratings.main`: drop rows with a missing
game date, then keep rows with `IP` (NaN read as 0) at least
`MIN_IP_FOR_RATING` — the source comparison is `>=`. -/
def ratingEligibleRows (rows : List PitchingLine) : List PitchingLine :=
  (rows.filter (fun r => r.game_date.isSome)).filter
    (fun r => decide (MIN_IP_FOR_RATING ≤ r.ip.getD 0))

/-- The shrinkage constant `shrink_ip = 20.0`. -/
def shrink_ip : ℚ := 20

/-- The credibility weight `IP / (IP + shrink_ip)` on the raw run average. -/
def shrinkWeight (ip : ℚ) : ℚ := ip / (ip + shrink_ip)

/-- The shrunk run average `ra9`: blend of the raw `RA9` and the league
default, weighted by innings pitched. -/
def shrunk_ra9 (ip raw : ℚ) : ℚ :=
  (ip / (ip + shrink_ip)) * raw + (shrink_ip / (ip + shrink_ip)) * LEAGUE_RA9_DEFAULT

/-- Is this row a relief appearance? (`starter` NaN is filled with `False`.) -/
def isRelief (r : PitchingLine) : Bool := !(r.starter.getD false)

/-- `ip_last_1d` for team `t` at date `d`: relief innings on day `d - 1`
exactly (`mask_1`). -/
def ip_last_1d (rows : List PitchingLine) (t : String) (d : ℤ) : ℚ :=
  ((rows.filter (fun r => isRelief r && r.canonical_id == t && r.game_date == some (d - 1))).map
    (fun r => r.ip.getD 0)).sum

/-- `ip_last_3d` for team `t` at date `d`: relief innings on days in
`[d - 3, d)` (`mask_3`). -/
def ip_last_3d (rows : List PitchingLine) (t : String) (d : ℤ) : ℚ :=
  ((rows.filter (fun r => isRelief r && r.canonical_id == t &&
      r.game_date.elim false (fun x => decide (d - 3 ≤ x) && decide (x < d)))).map
    (fun r => r.ip.getD 0)).sum

/-- `pc_last_1d` for team `t` at date `d`: relief pitch count on day `d - 1`. -/
def pc_last_1d (rows : List PitchingLine) (t : String) (d : ℤ) : ℚ :=
  ((rows.filter (fun r => isRelief r && r.canonical_id == t && r.game_date == some (d - 1))).map
    (fun r => r.pc.getD 0)).sum

/-! ### Market blend (`src/ncaa_baseball/pitcher_model.blend_with_market`) -/

/-- `blend_with_market`: skip blending when the market probability is absent
or outside `(0,1)`; otherwise mix model and market with weight
`alpha = alpha_max * (1 - min(n_games, n_full)/n_full)` on the market and
clamp the blend to `[0.01, 0.99]`. -/
def blend_with_market (model_win_prob_home : ℚ) (market_fair_home : Option ℚ)
    (n_games_played : ℤ) (alpha_max : ℚ) (n_games_full_model : ℤ) : ℚ × ℚ :=
  match market_fair_home with
  | none => (model_win_prob_home, 1 - model_win_prob_home)
  | some market =>
    if market ≤ 0 ∨ 1 ≤ market then (model_win_prob_home, 1 - model_win_prob_home)
    else
      let alpha := alpha_max *
        (1 - ((min n_games_played n_games_full_model : ℤ) : ℚ) / (n_games_full_model : ℚ))
      let blended := (1 - alpha) * model_win_prob_home + alpha * market
      let clamped := max (1 / 100) (min (99 / 100) blended)
      (clamped, 1 - clamped)

/-! ### Starter selection tiers (`scripts/build_todays_starters.main`) -/

/-- A starter pick: pitcher id (possibly blank), display name, producing tier
tag, confidence, audit note. -/
structure StarterPick where
  espn_id : String
  name : String
  source : String
  confidence : ℚ
  note : String
deriving DecidableEq

/-- `make_pick_from_manual_side` for one side of a manual starter row.
`resolveId` abstracts `resolve_name_to_pitcher_id(team_key, ·, starts)`, the
pure lookup into the appearance-history table, returning
(pitcher_espn_id, canonical name) with blanks for a miss. -/
def make_pick_from_manual_side (pid_raw pname_raw src_raw src_url_raw note_raw : String)
    (resolveId : String → String × String) : Option StarterPick :=
  let pid := strTrim pid_raw
  let pname := strTrim pname_raw
  let src := if strTrim src_raw = "" then "manual" else strTrim src_raw
  let src_url := strTrim src_url_raw
  let note := strTrim note_raw
  if pid ≠ "" then
    let base1 := "manual starter id"
    let base2 := if src_url ≠ "" then base1 ++ " (" ++ src_url ++ ")" else base1
    let base3 := if note ≠ "" then base2 ++ "; " ++ note else base2
    some ⟨pid, pname, "manual", 98 / 100, base3⟩
  else if pname ≠ "" then
    let rid := (resolveId pname).1
    let rname := (resolveId pname).2
    if rid ≠ "" then
      let base1 := "manual name matched to ESPN id via history (" ++ src ++ ")"
      let base2 := if src_url ≠ "" then base1 ++ " " ++ src_url else base1
      let base3 := if note ≠ "" then base2 ++ "; " ++ note else base2
      some ⟨rid, if rname = "" then pname else rname, "manual_name_matched", 92 / 100, base3⟩
    else
      let base1 := "manual name provided but ESPN id unresolved (" ++ src ++ ")"
      let base2 := if src_url ≠ "" then base1 ++ " " ++ src_url else base1
      let base3 := if note ≠ "" then base2 ++ "; " ++ note else base2
      some ⟨"", pname, "manual_unresolved_name", 45 / 100, base3⟩
  else none

/-- The in-tier id upgrade applied to a name-only D1-lineup pick. -/
def d1AugmentPick (resolveId : String → String × String) (p : StarterPick) : StarterPick :=
  if p.name ≠ "" ∧ p.espn_id = "" then
    let rid := (resolveId p.name).1
    let rname := (resolveId p.name).2
    if rid ≠ "" then
      ⟨rid, if rname = "" then p.name else rname, p.source, min (90 / 100) (p.confidence + 8 / 100),
        p.note ++ " | matched to ESPN id from history"⟩
    else
      ⟨"", p.name, p.source, p.confidence - 15 / 100, p.note ++ " | name unresolved to ESPN id"⟩
  else p

/-- The tier-3 pick from the ESPN summary boxscore starter fields. -/
def summaryPick (sid snm : String) : Option StarterPick :=
  if sid ≠ "" ∨ snm ≠ "" then
    some ⟨sid, snm, "espn_summary", if sid ≠ "" then 99 / 100 else 80 / 100,
      "starter from ESPN summary boxscore"⟩
  else none

/-- The tier-5 graceful fallback. -/
def unknownPick : StarterPick := ⟨"", "", "unknown", 0, "no source available"⟩

/-- The final best-effort name-to-id re-resolution applied to any pick with a
name but no id (keeps the tier tag, bumps confidence by 0.05 capped at 0.95). -/
def postResolvePick (resolveId : String → String × String) (p : StarterPick) : StarterPick :=
  if p.espn_id = "" ∧ p.name ≠ "" then
    let rid := (resolveId p.name).1
    let rname := (resolveId p.name).2
    if rid ≠ "" then
      ⟨rid, if rname = "" then p.name else rname, p.source, min (95 / 100) (p.confidence + 5 / 100),
        p.note ++ " | post-resolved ESPN id from history"⟩
    else p
  else p

/-- The per-(game, side) pick selection of `main`: manual tier, then (when the
pick is still missing) D1 same-day lineup, ESPN summary starter, rotation
inference, unknown fallback — followed by the post re-resolution step.  The
externally fetched tier outputs (D1 lineup pick, summary starter fields,
inferred pick) enter as data. -/
def selectSide (manualPick : Option StarterPick) (useD1 : Bool) (d1Pick : Option StarterPick)
    (useSummary : Bool) (summaryId summaryName : String) (inferPick : Option StarterPick)
    (resolveId : String → String × String) : StarterPick :=
  let afterManual := manualPick
  let afterD1 := match afterManual with
    | some p => some p
    | none => if useD1 then d1Pick.map (d1AugmentPick resolveId) else none
  let afterSummary := match afterD1 with
    | some p => some p
    | none => if useSummary then summaryPick summaryId summaryName else none
  let afterInfer := match afterSummary with
    | some p => some p
    | none => inferPick
  postResolvePick resolveId (afterInfer.getD unknownPick)

/-- Row used for the `IP = 0.1` boundary analysis of the rating filter. -/
def ipBoundaryRow : PitchingLine :=
  ⟨"p1", "t1", 2026, some 0, some (1 / 10), some 0, some 0, some 0, some true⟩

/-! ### Shared helper lemmas -/

/-- Filtering first by a weaker predicate does not change a filter by a
stronger one. -/
theorem filter_of_stronger {α : Type} (p q : α → Bool) (h : ∀ x, p x = true → q x = true) :
    ∀ l : List α, (l.filter q).filter p = l.filter p := by
  intro l
  induction l with
  | nil => rfl
  | cons a t ih =>
    by_cases hq : q a = true
    · by_cases hp : p a = true
      · simp [List.filter_cons, hq, hp, ih]
      · simp [List.filter_cons, hq, hp, ih]
    · have hp : ¬p a = true := fun hpa => hq (h a hpa)
      simp [List.filter_cons, hq, hp, ih]

/-! ### C1 — market blend boundary behaviour -/

/-- Claim C1 (counterexample): with `n_games = 0` the returned home
probability is not always `0.4*p + 0.6*m` on `(0,1)` inputs — at
`p = m = 0.001` the blend is clamped up to `0.01`. -/
theorem blend_with_market_c1_counterexample :
    (0 : ℚ) < 1 / 1000 ∧ (1 / 1000 : ℚ) < 1 ∧
    (blend_with_market (1 / 1000) (some (1 / 1000)) 0 (3 / 5) 25).1 ≠
      (2 / 5) * (1 / 1000) + (3 / 5) * (1 / 1000) := by
  refine ⟨by norm_num, by norm_num, ?_⟩
  norm_num [blend_with_market]

/-- Claim C1 (amended): for model and market probabilities in `(0,1)`, with
`n_games = 0` the blend returns `0.4*p + 0.6*m` clamped to `[0.01, 0.99]`
(equal to `0.4*p + 0.6*m` whenever that value lies in the clamp range), and
with `n_games ≥ 25` it returns `p` clamped to `[0.01, 0.99]` (equal to `p`
whenever `p` lies in the clamp range). -/
theorem blend_with_market_c1_amended (p m : ℚ) (ng : ℤ)
    (hp0 : 0 < p) (hp1 : p < 1) (hm0 : 0 < m) (hm1 : m < 1) (hng : 25 ≤ ng) :
    (blend_with_market p (some m) 0 (3 / 5) 25).1 =
      max (1 / 100) (min (99 / 100) ((2 / 5) * p + (3 / 5) * m))
    ∧ (1 / 100 ≤ (2 / 5) * p + (3 / 5) * m → (2 / 5) * p + (3 / 5) * m ≤ 99 / 100 →
        (blend_with_market p (some m) 0 (3 / 5) 25).1 = (2 / 5) * p + (3 / 5) * m)
    ∧ (blend_with_market p (some m) ng (3 / 5) 25).1 = max (1 / 100) (min (99 / 100) p)
    ∧ (1 / 100 ≤ p → p ≤ 99 / 100 → (blend_with_market p (some m) ng (3 / 5) 25).1 = p) := by
  have hguard : ¬(m ≤ 0 ∨ 1 ≤ m) := by push_neg; exact ⟨hm0, hm1⟩
  have hmin0 : min (0 : ℤ) 25 = 0 := by decide
  have hminn : min ng 25 = 25 := min_eq_right hng
  have h0 : (blend_with_market p (some m) 0 (3 / 5) 25).1 =
      max (1 / 100) (min (99 / 100) ((2 / 5) * p + (3 / 5) * m)) := by
    simp only [blend_with_market, if_neg hguard, hmin0]
    norm_num
  have hn : (blend_with_market p (some m) ng (3 / 5) 25).1 =
      max (1 / 100) (min (99 / 100) p) := by
    simp only [blend_with_market, if_neg hguard, hminn]
    norm_num
  refine ⟨h0, ?_, hn, ?_⟩
  · intro hlo hhi
    rw [h0, min_eq_right hhi, max_eq_right hlo]
  · intro hlo hhi
    rw [hn, min_eq_right hhi, max_eq_right hlo]

/-- Claim C1 witness: spec scenario 4 — `p = 0.55`, `m = 0.70`, 0 games
played, blends to `0.4*0.55 + 0.6*0.70 = 0.64`. -/
theorem blend_with_market_c1_witness :
    (0 : ℚ) < 11 / 20 ∧ (11 / 20 : ℚ) < 1 ∧ (0 : ℚ) < 7 / 10 ∧ (7 / 10 : ℚ) < 1 ∧
    (25 : ℤ) ≤ 30 ∧
    ((blend_with_market (11 / 20) (some (7 / 10)) 0 (3 / 5) 25).1 =
        max (1 / 100) (min (99 / 100) ((2 / 5) * (11 / 20) + (3 / 5) * (7 / 10)))
      ∧ ((1 : ℚ) / 100 ≤ (2 / 5) * (11 / 20) + (3 / 5) * (7 / 10) →
          ((2 : ℚ) / 5) * (11 / 20) + (3 / 5) * (7 / 10) ≤ 99 / 100 →
          (blend_with_market (11 / 20) (some (7 / 10)) 0 (3 / 5) 25).1 =
            (2 / 5) * (11 / 20) + (3 / 5) * (7 / 10))
      ∧ (blend_with_market (11 / 20) (some (7 / 10)) 30 (3 / 5) 25).1 =
          max (1 / 100) (min (99 / 100) (11 / 20))
      ∧ (1 / 100 ≤ (11 / 20 : ℚ) → (11 / 20 : ℚ) ≤ 99 / 100 →
          (blend_with_market (11 / 20) (some (7 / 10)) 30 (3 / 5) 25).1 = 11 / 20)) :=
  ⟨by norm_num, by norm_num, by norm_num, by norm_num, by norm_num,
    blend_with_market_c1_amended (11 / 20) (7 / 10) 30
      (by norm_num) (by norm_num) (by norm_num) (by norm_num) (by norm_num)⟩

/-! ### C3 — eligibility threshold of the pitcher-rating row filter -/

/-- Claim C3 (counterexample): a row with `innings_pitched` exactly `0.1` IS
kept by the aggregation filter (the source comparison is `>=`), although it is
not strictly greater than `0.1`. -/
theorem rating_filter_c3_counterexample :
    ipBoundaryRow ∈ ratingEligibleRows [ipBoundaryRow] ∧
    ¬(MIN_IP_FOR_RATING < ipBoundaryRow.ip.getD 0) := by
  constructor
  · simp [ratingEligibleRows, ipBoundaryRow, MIN_IP_FOR_RATING]
  · simp [ipBoundaryRow, MIN_IP_FOR_RATING]

/-- Claim C3 (amended): a pitcher-appearance row with a valid game date is
included in rating aggregation if and only if its `innings_pitched` (0 when
missing) is at least `MIN_IP_FOR_RATING = 0.1`; in particular a row with
exactly `0.1` innings IS eligible. -/
theorem rating_filter_c3_amended (r : PitchingLine) (rows : List PitchingLine)
    (hmem : r ∈ rows) (hdate : r.game_date.isSome = true) :
    r ∈ ratingEligibleRows rows ↔ MIN_IP_FOR_RATING ≤ r.ip.getD 0 := by
  simp [ratingEligibleRows, List.mem_filter, hmem, hdate]

/-- Claim C3 witness: the boundary row in a one-row table. -/
theorem rating_filter_c3_witness :
    ipBoundaryRow ∈ [ipBoundaryRow] ∧ ipBoundaryRow.game_date.isSome = true ∧
    (ipBoundaryRow ∈ ratingEligibleRows [ipBoundaryRow] ↔
      MIN_IP_FOR_RATING ≤ ipBoundaryRow.ip.getD 0) :=
  ⟨List.mem_singleton.mpr rfl, rfl,
    rating_filter_c3_amended ipBoundaryRow [ipBoundaryRow] (List.mem_singleton.mpr rfl) rfl⟩

/-! ### C6 — shrinkage behaviour of the shrunk run average -/

/-- Claim C6 (counterexample): "moves strictly closer to raw as IP increases"
fails when the raw run average already equals the league default — the
distance is 0 at every IP, so it does not strictly decrease from IP 0 to 1. -/
theorem shrunk_ra9_c6_counterexample :
    (0 : ℚ) ≤ 0 ∧ (0 : ℚ) < 1 ∧
    ¬(|shrunk_ra9 1 LEAGUE_RA9_DEFAULT - LEAGUE_RA9_DEFAULT| <
        |shrunk_ra9 0 LEAGUE_RA9_DEFAULT - LEAGUE_RA9_DEFAULT|) := by
  refine ⟨le_refl 0, by norm_num, ?_⟩
  norm_num [shrunk_ra9, shrink_ip, LEAGUE_RA9_DEFAULT]

/-- Claim C6 (amended): for a fixed raw run-average and `0 ≤ IP₁ < IP₂`, the
shrunk `ra9` moves strictly closer to raw as IP increases WHENEVER
`raw ≠ league_default` (at `raw = league_default` it is constant); it equals
the league default exactly at `IP = 0`; and the shrinkage weight
`IP/(IP + 20)` is strictly increasing in IP and bounded in `[0, 1)`. -/
theorem shrunk_ra9_c6_amended (raw ip1 ip2 : ℚ) (h0 : 0 ≤ ip1) (h12 : ip1 < ip2) :
    (raw ≠ LEAGUE_RA9_DEFAULT →
      |shrunk_ra9 ip2 raw - raw| < |shrunk_ra9 ip1 raw - raw|)
    ∧ shrunk_ra9 0 raw = LEAGUE_RA9_DEFAULT
    ∧ shrinkWeight ip1 < shrinkWeight ip2
    ∧ 0 ≤ shrinkWeight ip1 ∧ shrinkWeight ip1 < 1 := by
  have hp1 : (0 : ℚ) < ip1 + 20 := by linarith
  have hp2 : (0 : ℚ) < ip2 + 20 := by linarith
  have key : ∀ ip : ℚ, 0 < ip + 20 →
      shrunk_ra9 ip raw - raw = (20 / (ip + 20)) * (LEAGUE_RA9_DEFAULT - raw) := by
    intro ip hip
    have hne : ip + 20 ≠ 0 := ne_of_gt hip
    simp only [shrunk_ra9, shrink_ip, LEAGUE_RA9_DEFAULT]
    field_simp
    ring
  refine ⟨?_, ?_, ?_, ?_, ?_⟩
  · intro hraw
    have habs : (0 : ℚ) < |LEAGUE_RA9_DEFAULT - raw| :=
      abs_pos.mpr (sub_ne_zero.mpr (Ne.symm hraw))
    rw [key ip1 hp1, key ip2 hp2, abs_mul, abs_mul,
      abs_of_pos (div_pos (by norm_num : (0:ℚ) < 20) hp1),
      abs_of_pos (div_pos (by norm_num : (0:ℚ) < 20) hp2)]
    exact mul_lt_mul_of_pos_right
      (div_lt_div_of_pos_left (by norm_num) hp1 (by linarith)) habs
  · simp only [shrunk_ra9, shrink_ip, LEAGUE_RA9_DEFAULT]
    norm_num
  · simp only [shrinkWeight, shrink_ip]
    rw [div_lt_div_iff hp1 hp2]
    nlinarith
  · exact div_nonneg h0 (le_of_lt (by simpa [shrink_ip] using hp1))
  · simp only [shrinkWeight, shrink_ip]
    rw [div_lt_one hp1]
    linarith

/-- Claim C6 witness: `raw = 4`, `IP₁ = 2`, `IP₂ = 30`. -/
theorem shrunk_ra9_c6_witness :
    (0 : ℚ) ≤ 2 ∧ (2 : ℚ) < 30 ∧
    (((4 : ℚ) ≠ LEAGUE_RA9_DEFAULT →
        |shrunk_ra9 30 4 - 4| < |shrunk_ra9 2 4 - 4|)
      ∧ shrunk_ra9 0 4 = LEAGUE_RA9_DEFAULT
      ∧ shrinkWeight 2 < shrinkWeight 30
      ∧ 0 ≤ shrinkWeight 2 ∧ shrinkWeight 2 < 1) :=
  ⟨by norm_num, by norm_num, shrunk_ra9_c6_amended 4 2 30 (by norm_num) (by norm_num)⟩

/-! ### C7 — bullpen workload causality -/

/-- Claim C7 (confirmed): the trailing bullpen sums `ip_last_1d`, `ip_last_3d`
and `pc_last_1d` for team `t` at date `d` depend only on appearances dated
strictly before `d` — restricting the table to rows with `game_date < d`
leaves all three unchanged, so no appearance on day `d` or later is ever
included. -/
theorem bullpen_workload_causality (rows : List PitchingLine) (t : String) (d : ℤ) :
    ip_last_1d rows t d =
      ip_last_1d (rows.filter (fun r => r.game_date.elim false (fun x => decide (x < d)))) t d
    ∧ ip_last_3d rows t d =
      ip_last_3d (rows.filter (fun r => r.game_date.elim false (fun x => decide (x < d)))) t d
    ∧ pc_last_1d rows t d =
      pc_last_1d (rows.filter (fun r => r.game_date.elim false (fun x => decide (x < d)))) t d := by
  have himp1 : ∀ r : PitchingLine,
      (isRelief r && r.canonical_id == t && r.game_date == some (d - 1)) = true →
      (r.game_date.elim false (fun x => decide (x < d))) = true := by
    intro r hr
    simp only [Bool.and_eq_true, beq_iff_eq] at hr
    rw [hr.2]
    simp only [Option.elim_some, decide_eq_true_eq]
    omega
  have himp3 : ∀ r : PitchingLine,
      (isRelief r && r.canonical_id == t &&
        r.game_date.elim false (fun x => decide (d - 3 ≤ x) && decide (x < d))) = true →
      (r.game_date.elim false (fun x => decide (x < d))) = true := by
    intro r hr
    simp only [Bool.and_eq_true] at hr
    rcases hr with ⟨-, hdate⟩
    cases hgd : r.game_date with
    | none => rw [hgd] at hdate; simp at hdate
    | some x =>
      rw [hgd] at hdate
      simp only [Option.elim_some, Bool.and_eq_true, decide_eq_true_eq] at hdate
      simp only [Option.elim_some, decide_eq_true_eq]
      exact hdate.2
  refine ⟨?_, ?_, ?_⟩
  · unfold ip_last_1d
    rw [filter_of_stronger _ _ himp1]
  · unfold ip_last_3d
    rw [filter_of_stronger _ _ himp3]
  · unfold pc_last_1d
    rw [filter_of_stronger _ _ himp1]

/-! ### C8 — single-game Elo update is zero-sum from the pre-game pair -/

/-- Claim C8 (confirmed): in one Elo game update between distinct teams, both
new ratings are computed from the same pre-game rating pair, and the home
rating change is exactly the negative of the away rating change. -/
theorem eloStep_zero_sum (k adv initial : ℝ) (s : EloState) (h a : String) (w : ℤ)
    (hne : h ≠ a) :
    (eloStep k adv initial s h a w).r h =
      (preRatings initial s h a).1 +
        k * ((w : ℝ) - elo_expected (preRatings initial s h a).1 (preRatings initial s h a).2 adv)
    ∧ (eloStep k adv initial s h a w).r a =
      (preRatings initial s h a).2 +
        k * ((1 - (w : ℝ)) -
          (1 - elo_expected (preRatings initial s h a).1 (preRatings initial s h a).2 adv))
    ∧ (eloStep k adv initial s h a w).r h - (preRatings initial s h a).1 =
      -((eloStep k adv initial s h a w).r a - (preRatings initial s h a).2) := by
  refine ⟨?_, ?_, ?_⟩ <;>
    simp [eloStep, preRatings, updF, hne, Ne.symm hne] <;>
    ring

/-- Claim C8 witness: a concrete update from the empty state. -/
theorem eloStep_zero_sum_witness :
    ("H" : String) ≠ "A" ∧
    ((eloStep 32 30 1500 emptyElo "H" "A" 1).r "H" =
      (preRatings 1500 emptyElo "H" "A").1 +
        32 * ((1 : ℤ) -
          elo_expected (preRatings 1500 emptyElo "H" "A").1 (preRatings 1500 emptyElo "H" "A").2 30)
    ∧ (eloStep 32 30 1500 emptyElo "H" "A" 1).r "A" =
      (preRatings 1500 emptyElo "H" "A").2 +
        32 * ((1 - ((1 : ℤ) : ℝ)) -
          (1 - elo_expected (preRatings 1500 emptyElo "H" "A").1
            (preRatings 1500 emptyElo "H" "A").2 30))
    ∧ (eloStep 32 30 1500 emptyElo "H" "A" 1).r "H" - (preRatings 1500 emptyElo "H" "A").1 =
      -((eloStep 32 30 1500 emptyElo "H" "A" 1).r "A" - (preRatings 1500 emptyElo "H" "A").2)) :=
  ⟨by decide, eloStep_zero_sum 32 30 1500 emptyElo "H" "A" 1 (by decide)⟩

/-! ### C5 — unresolved games are skipped entirely -/

/-- Claim C5 (confirmed): a game with a missing canonical id on either side
has no effect at all on the Elo fit — removing it from the input leaves the
final state (every team's rating, game count, and initialization status)
unchanged, wherever it appears in the list. -/
theorem fit_elo_skips_unresolved (k adv initial : ℝ) (l1 l2 : List EloGame) (g : EloGame)
    (hg : g.home = none ∨ g.away = none) :
    fit_elo k adv initial (l1 ++ g :: l2) = fit_elo k adv initial (l1 ++ l2) := by
  have hfalse : (g.home.isSome && g.away.isSome) = false := by
    cases hg with
    | inl h => simp [h]
    | inr h => simp [h]
  simp only [fit_elo, List.filter_append, List.filter_cons, hfalse]
  simp

/-- Claim C5 witness: an away-resolved-only game inserted between two resolved
games changes nothing. -/
theorem fit_elo_skips_unresolved_witness :
    ((⟨1, none, some "A", 1⟩ : EloGame).home = none ∨
      (⟨1, none, some "A", 1⟩ : EloGame).away = none) ∧
    fit_elo 32 30 1500 ([⟨0, some "H", some "A", 1⟩] ++ (⟨1, none, some "A", 1⟩ : EloGame) ::
        [⟨2, some "A", some "H", 0⟩]) =
      fit_elo 32 30 1500 ([⟨0, some "H", some "A", 1⟩] ++ [⟨2, some "A", some "H", 0⟩]) :=
  ⟨Or.inl rfl,
    fit_elo_skips_unresolved 32 30 1500 [⟨0, some "H", some "A", 1⟩]
      [⟨2, some "A", some "H", 0⟩] ⟨1, none, some "A", 1⟩ (Or.inl rfl)⟩

/-! ### C9 — manual override wins the starter tier ladder -/

/-- Claim C9 (confirmed): when the manual-override tier produces a pick for a
side, the pipeline's result for that side is exactly that pick passed through
the final name-to-id re-resolution step — the D1 lineup, ESPN summary,
rotation-inference and unknown tiers contribute nothing, whatever they would
have produced. -/
theorem manual_tier_overrides (pid pname src src_url note : String)
    (resolveId : String → String × String) (useD1 useSummary : Bool)
    (d1Pick : Option StarterPick) (sid snm : String) (inferPick : Option StarterPick)
    (m : StarterPick)
    (hm : make_pick_from_manual_side pid pname src src_url note resolveId = some m) :
    selectSide (make_pick_from_manual_side pid pname src src_url note resolveId)
      useD1 d1Pick useSummary sid snm inferPick resolveId = postResolvePick resolveId m := by
  simp [selectSide, hm]

/-- Claim C9 witness: a manual id-bearing pick beats a present D1 pick, a
present summary starter and a present inferred pick. -/
theorem manual_tier_overrides_witness :
    make_pick_from_manual_side "55" "John Doe" "" "" "" (fun _ => ("", "")) =
      some ⟨"55", "John Doe", "manual", 98 / 100, "manual starter id"⟩ ∧
    selectSide (make_pick_from_manual_side "55" "John Doe" "" "" "" (fun _ => ("", "")))
        true (some ⟨"", "Other Guy", "d1_lineup_today", 78 / 100, "d1 row"⟩)
        true "77" "Summary Guy" (some ⟨"9", "Inferred Guy", "inferred_rotation", 50 / 100, "x"⟩)
        (fun _ => ("", "")) =
      postResolvePick (fun _ => ("", ""))
        ⟨"55", "John Doe", "manual", 98 / 100, "manual starter id"⟩ :=
  ⟨rfl,
    manual_tier_overrides "55" "John Doe" "" "" "" (fun _ => ("", "")) true true
      (some ⟨"", "Other Guy", "d1_lineup_today", 78 / 100, "d1 row"⟩) "77" "Summary Guy"
      (some ⟨"9", "Inferred Guy", "inferred_rotation", 50 / 100, "x"⟩)
      ⟨"55", "John Doe", "manual", 98 / 100, "manual starter id"⟩ rfl⟩

/-! ### C2 — single game between two unseen teams -/

/-- One game between two distinct unseen teams: closed form of both post-game
ratings in terms of the initial rating, `K`, the result and the (symmetric)
expected score. -/
theorem fit_elo_single (k adv initial : ℝ) (d w : ℤ) (h a : String) (hne : h ≠ a) :
    (fit_elo k adv initial [⟨d, some h, some a, w⟩]).r h =
      initial + k * ((w : ℝ) - elo_expected initial initial adv)
    ∧ (fit_elo k adv initial [⟨d, some h, some a, w⟩]).r a =
      initial + k * (elo_expected initial initial adv - (w : ℝ)) := by
  refine ⟨?_, ?_⟩ <;>
    simp [fit_elo, sortByDate, insertByDate, eloStep, get_rating, emptyElo, updF,
      hne, Ne.symm hne] <;>
    ring

/-- Claim C2 (counterexample): with the fitter's default parameters
(`K = 32`, `home_advantage = 30`, `initial = 1500`) a single home win between
two unseen teams does NOT produce `R_home = 1516`, `R_away = 1484`: the
30-point home advantage makes the expected home score exceed 1/2, so
`R_home < 1516` and `R_away > 1484`. -/
theorem fit_elo_c2_counterexample :
    (fit_elo 32 30 1500 [⟨0, some "H", some "A", 1⟩]).r "H" ≠ 1516 ∧
    (fit_elo 32 30 1500 [⟨0, some "H", some "A", 1⟩]).r "A" ≠ 1484 := by
  obtain ⟨hH, hA⟩ := fit_elo_single 32 30 1500 0 1 "H" "A" (by decide)
  have hx : ((1500 : ℝ) - (1500 + 30)) / 400 = -(3 / 40) := by norm_num
  have hE : elo_expected 1500 1500 30 = 1 / (1 + (10 : ℝ) ^ (-(3 / 40) : ℝ)) := by
    simp only [elo_expected]
    rw [hx]
  have ht0 : (0 : ℝ) < (10 : ℝ) ^ (-(3 / 40) : ℝ) := Real.rpow_pos_of_pos (by norm_num) _
  have ht1 : (10 : ℝ) ^ (-(3 / 40) : ℝ) < 1 :=
    Real.rpow_lt_one_of_one_lt_of_neg (by norm_num) (by norm_num)
  have hEgt : (1 : ℝ) / 2 < elo_expected 1500 1500 30 := by
    rw [hE, lt_div_iff (by linarith)]
    linarith
  constructor
  · rw [hH]
    push_cast
    intro heq
    nlinarith [hEgt]
  · rw [hA]
    push_cast
    intro heq
    nlinarith [hEgt]

/-- Claim C2 (amended): with the default `K = 32` and `initial = 1500` the
post-game ratings after a single home win between two unseen teams are
`R_home = 1500 + 32*(1 − e)` and `R_away = 1500 − 32*(1 − e)` with
`e = 1/(1 + 10^(−30/400))` ≈ 0.543 (≈ 1514.62 / 1485.38); the values
`R_home = 1516`, `R_away = 1484` arise exactly when `home_advantage` is 0
instead of its default 30. -/
theorem fit_elo_c2_amended :
    (fit_elo 32 30 1500 [⟨0, some "H", some "A", 1⟩]).r "H" =
      1500 + 32 * (1 - 1 / (1 + (10 : ℝ) ^ (-(3 / 40) : ℝ)))
    ∧ (fit_elo 32 30 1500 [⟨0, some "H", some "A", 1⟩]).r "A" =
      1500 - 32 * (1 - 1 / (1 + (10 : ℝ) ^ (-(3 / 40) : ℝ)))
    ∧ (fit_elo 32 0 1500 [⟨0, some "H", some "A", 1⟩]).r "H" = 1516
    ∧ (fit_elo 32 0 1500 [⟨0, some "H", some "A", 1⟩]).r "A" = 1484 := by
  have hx : ((1500 : ℝ) - (1500 + 30)) / 400 = -(3 / 40) := by norm_num
  have hE : elo_expected 1500 1500 30 = 1 / (1 + (10 : ℝ) ^ (-(3 / 40) : ℝ)) := by
    simp only [elo_expected]
    rw [hx]
  have hx0 : ((1500 : ℝ) - (1500 + 0)) / 400 = 0 := by norm_num
  have hE0 : elo_expected 1500 1500 0 = 1 / 2 := by
    simp only [elo_expected]
    rw [hx0, Real.rpow_zero]
    norm_num
  obtain ⟨hH, hA⟩ := fit_elo_single 32 30 1500 0 1 "H" "A" (by decide)
  obtain ⟨hH0, hA0⟩ := fit_elo_single 32 0 1500 0 1 "H" "A" (by decide)
  refine ⟨?_, ?_, ?_, ?_⟩
  · rw [hH, hE]; push_cast; ring
  · rw [hA, hE]; push_cast; ring
  · rw [hH0, hE0]; push_cast; ring
  · rw [hA0, hE0]; push_cast; ring

/-! ### C10 — the reverse prefix rule carries a length guard -/

/-- Membership through the stable insertion used to sort registry rows. -/
theorem mem_insertRowByLen (r x : TeamRow) :
    ∀ l : List TeamRow, x ∈ insertRowByLen r l → x = r ∨ x ∈ l := by
  intro l
  induction l with
  | nil =>
    intro hx
    simp only [insertRowByLen, List.mem_singleton] at hx
    exact Or.inl hx
  | cons a t ih =>
    intro hx
    simp only [insertRowByLen] at hx
    by_cases hc : strLen (strTrim a.team_name) < strLen (strTrim r.team_name)
    · rw [if_pos hc] at hx
      rcases List.mem_cons.mp hx with h1 | h2
      · exact Or.inl h1
      · exact Or.inr h2
    · rw [if_neg hc] at hx
      rcases List.mem_cons.mp hx with h1 | h2
      · exact Or.inr (List.mem_cons.mpr (Or.inl h1))
      · rcases ih h2 with h | h
        · exact Or.inl h
        · exact Or.inr (List.mem_cons.mpr (Or.inr h))

/-- Every row of the sorted candidate list is a row of the registry. -/
theorem mem_of_rowsSortedByNameLen (canonical : List TeamRow) (x : TeamRow)
    (hx : x ∈ rowsSortedByNameLen canonical) : x ∈ canonical := by
  have aux : ∀ l : List TeamRow, x ∈ l.foldr insertRowByLen [] → x ∈ l := by
    intro l
    induction l with
    | nil => intro h; simpa using h
    | cons a t ih =>
      intro h
      rcases mem_insertRowByLen a x _ h with h1 | h2
      · exact List.mem_cons.mpr (Or.inl h1)
      · exact List.mem_cons.mpr (Or.inr (ih h2))
  have := aux _ hx
  exact (List.mem_filter.mp this).1

/-- Any match produced by the prefix loop comes from a listed row and fires
either the forward rule or the reverse rule with its length guard. -/
theorem resolve_one_loop_spec (n : String) :
    ∀ (l : List TeamRow) (out : String × ℤ),
    resolve_one_loop n l = some out →
    ∃ r ∈ l, out = (r.canonical_id, r.ncaa_teams_id) ∧
      ((strStartsWith n (normalize_for_match (strTrim r.team_name) ++ " ") = true ∨
          n = normalize_for_match (strTrim r.team_name)) ∨
        (strStartsWith (normalize_for_match (strTrim r.team_name)) n = true ∧
          strLen (normalize_for_match (strTrim r.team_name)) ≤ strLen n + 2)) := by
  intro l
  induction l with
  | nil => intro out h; simp [resolve_one_loop] at h
  | cons r rest ih =>
    intro out h
    simp only [resolve_one_loop] at h
    by_cases h1 : strStartsWith n (normalize_for_match (strTrim r.team_name) ++ " ") = true ∨
        n = normalize_for_match (strTrim r.team_name)
    · rw [if_pos h1] at h
      exact ⟨r, List.mem_cons_self r rest, (Option.some.injEq _ _).mp h.symm ▸ rfl, Or.inl h1⟩
    · rw [if_neg h1] at h
      by_cases h2 : strStartsWith (normalize_for_match (strTrim r.team_name)) n = true ∧
          ((strLen n : ℤ) ≥ (strLen (normalize_for_match (strTrim r.team_name)) : ℤ) - 2)
      · rw [if_pos h2] at h
        refine ⟨r, List.mem_cons_self r rest, (Option.some.injEq _ _).mp h.symm ▸ rfl,
          Or.inr ⟨h2.1, ?_⟩⟩
        have := h2.2
        omega
      · rw [if_neg h2] at h
        obtain ⟨r', hmem, hout, hrule⟩ := ih out h
        exact ⟨r', List.mem_cons.mpr (Or.inr hmem), hout, hrule⟩

/-- Claim C10 (confirmed): whenever `resolve_one` (`resolve_odds_teams`)
resolves an odds name to a registry row, the hit is either the exact
crosswalk lookup, the forward prefix rule, or the reverse prefix rule — and
the reverse rule accepts only when the normalized input is at most 2
characters shorter than the candidate's normalized team name
(`len(n) >= len(norm_name) - 2`); an input more than 2 characters shorter is
never resolved through that rule. -/
theorem resolve_one_c10 (canonical : List TeamRow) (m : List (String × String × ℤ))
    (odds_name : String) (out : String × ℤ)
    (h : resolve_one canonical m odds_name = some out) :
    lookupNameMap m (normalize_for_match odds_name) = some out ∨
    ∃ r ∈ canonical, out = (r.canonical_id, r.ncaa_teams_id) ∧
      ((strStartsWith (normalize_for_match odds_name)
            (normalize_for_match (strTrim r.team_name) ++ " ") = true ∨
          normalize_for_match odds_name = normalize_for_match (strTrim r.team_name)) ∨
        (strStartsWith (normalize_for_match (strTrim r.team_name))
            (normalize_for_match odds_name) = true ∧
          strLen (normalize_for_match (strTrim r.team_name)) ≤
            strLen (normalize_for_match odds_name) + 2)) := by
  rw [resolve_one] at h
  cases hl : lookupNameMap m (normalize_for_match odds_name) with
  | some v =>
    rw [hl] at h
    exact Or.inl h
  | none =>
    rw [hl] at h
    obtain ⟨r, hmem, hout, hrule⟩ := resolve_one_loop_spec _ _ out h
    exact Or.inr ⟨r, mem_of_rowsSortedByNameLen canonical r hmem, hout, hrule⟩

/-- Claim C10 witness: "Kansas St" resolves to the "Kansas St." row through
the reverse prefix rule (one character shorter, within the guard). -/
theorem resolve_one_c10_witness :
    resolve_one [⟨"kansas-st", 1, "Kansas St.", ""⟩] [] "Kansas St" = some ("kansas-st", 1) ∧
    (lookupNameMap [] (normalize_for_match "Kansas St") = some ("kansas-st", 1) ∨
      ∃ r ∈ [(⟨"kansas-st", 1, "Kansas St.", ""⟩ : TeamRow)],
        ("kansas-st", (1 : ℤ)) = (r.canonical_id, r.ncaa_teams_id) ∧
        ((strStartsWith (normalize_for_match "Kansas St")
              (normalize_for_match (strTrim r.team_name) ++ " ") = true ∨
            normalize_for_match "Kansas St" = normalize_for_match (strTrim r.team_name)) ∨
          (strStartsWith (normalize_for_match (strTrim r.team_name))
              (normalize_for_match "Kansas St") = true ∧
            strLen (normalize_for_match (strTrim r.team_name)) ≤
              strLen (normalize_for_match "Kansas St") + 2))) :=
  ⟨by decide,
    resolve_one_c10 [⟨"kansas-st", 1, "Kansas St.", ""⟩] [] "Kansas St" ("kansas-st", 1)
      (by decide)⟩

/-! ### C4 — "Florida International" never resolves to "Florida" -/

/-- Folding the dict-key collector over a constant list yields the single key. -/
theorem dedupKeys_const (k : String) :
    ∀ l : List String, l ≠ [] → (∀ x ∈ l, x = k) → dedupKeys l = [k] := by
  have aux : ∀ l : List String, (∀ x ∈ l, x = k) →
      l.foldl (fun acc k' => if k' ∈ acc then acc else acc ++ [k']) [k] = [k] := by
    intro l
    induction l with
    | nil => intro _; rfl
    | cons a t ih =>
      intro hall
      have ha : a = k := hall a (List.mem_cons_self a t)
      have hmem : a ∈ [k] := by rw [ha]; exact List.mem_singleton.mpr rfl
      simp only [List.foldl_cons, if_pos hmem]
      exact ih (fun x hx => hall x (List.mem_cons.mpr (Or.inr hx)))
  intro l hne hall
  cases l with
  | nil => exact absurd rfl hne
  | cons a t =>
    have ha : a = k := hall a (List.mem_cons_self a t)
    rw [dedupKeys]
    simp only [List.foldl_cons, List.not_mem_nil, if_neg (fun h => h), List.nil_append]
    rw [ha]
    exact aux t (fun x hx => hall x (List.mem_cons.mpr (Or.inr hx)))

/-- `find?` on a non-empty list all of whose elements satisfy the predicate
succeeds with a member. -/
theorem find?_of_all {α : Type} (p : α → Bool) (l : List α) (hne : l ≠ [])
    (hall : ∀ x ∈ l, p x = true) : ∃ c, l.find? p = some c ∧ c ∈ l := by
  cases l with
  | nil => exact absurd rfl hne
  | cons a t =>
    refine ⟨a, ?_, List.mem_cons_self a t⟩
    rw [List.find?_cons_of_pos _ (hall a (List.mem_cons_self a t))]

/-- De-duplicating by canonical id a non-empty candidate list whose members
all carry the same canonical id yields exactly one candidate from the list. -/
theorem dedupByCid_const (l : List Cand) (k : String) (hne : l ≠ [])
    (hall : ∀ c ∈ l, c.1 = k) :
    ∃ c, dedupByCid l = [c] ∧ c ∈ l ∧ c.1 = k := by
  have hkeys_ne : l.map (·.1) ≠ [] := by
    intro h
    exact hne (List.map_eq_nil_iff.mp h)
  have hkeys_all : ∀ x ∈ l.map (·.1), x = k := by
    intro x hx
    obtain ⟨c, hc, rfl⟩ := List.mem_map.mp hx
    exact hall c hc
  have hrev_ne : l.reverse ≠ [] := by
    intro h
    exact hne (List.reverse_eq_nil_iff.mp h)
  have hrev_all : ∀ c ∈ l.reverse, (fun c : Cand => c.1 == k) c = true := by
    intro c hc
    exact beq_iff_eq.mpr (hall c (List.mem_reverse.mp hc))
  obtain ⟨c, hfind, hcmem⟩ := find?_of_all _ l.reverse hrev_ne hrev_all
  refine ⟨c, ?_, List.mem_reverse.mp hcmem, ?_⟩
  · rw [dedupByCid, dedupKeys_const k _ hkeys_ne hkeys_all]
    simp only [List.filterMap, lastWithCid, hfind]
  · have := List.find?_some hfind
    exact beq_iff_eq.mp this

/-- Claim C4 (confirmed): for every registry containing a team named
"Florida" and a team named "Florida International" (with distinct canonical
ids, the latter's id well-formed, and no other row claiming the normalized
name "florida international"), `resolve_team_name_to_canonical` applied to
"Florida International" returns the canonical id of the "Florida
International" row and never the canonical id of the "Florida" row. -/
theorem resolve_florida_international_c4
    (canonical : List TeamRow) (m : List (String × String × ℤ))
    (rFl rFI : TeamRow) (cf ci : String)
    (hFlMem : rFl ∈ canonical) (hFlName : rFl.team_name = "Florida")
    (hFlCid : rFl.canonical_id = cf)
    (hFIMem : rFI ∈ canonical) (hFIName : rFI.team_name = "Florida International")
    (hFICid : rFI.canonical_id = ci)
    (hciTrim : strTrim ci = ci) (hciNe : ci ≠ "") (hDistinct : cf ≠ ci)
    (hUnique : ∀ r ∈ canonical,
      "florida international" ∈ team_forms_from_norm (normalize_team_name (strTrim r.team_name)) →
      strTrim r.canonical_id = ci) :
    (∃ t : ℤ, resolve_team_name_to_canonical "Florida International" canonical m = some (ci, t))
    ∧ ∀ t : ℤ,
      resolve_team_name_to_canonical "Florida International" canonical m ≠ some (cf, t) := by
  have hn : normalize_team_name "Florida International" = "florida international" := by decide
  have hforms : team_forms_from_norm "florida international" = ["florida international"] := by
    decide
  have htr : strTrim "Florida International" = "Florida International" := by decide
  have hfmem : "florida international" ∈
      team_forms_from_norm (normalize_team_name "Florida International") := by decide
  have hentry : indexEntry "florida international" rFI =
      some (ci, rFI.ncaa_teams_id, "Florida International") := by
    simp only [indexEntry, hFIName, hFICid, hciTrim, htr]
    rw [if_neg hciNe, if_pos hfmem]
  have hin : (ci, rFI.ncaa_teams_id, "Florida International") ∈
      indexLookup canonical "florida international" :=
    List.mem_filterMap.mpr ⟨rFI, hFIMem, hentry⟩
  have hall : ∀ c ∈ indexLookup canonical "florida international", c.1 = ci := by
    intro c hc
    obtain ⟨r, hr, he⟩ := List.mem_filterMap.mp hc
    simp only [indexEntry] at he
    split_ifs at he with h1 h2
    · obtain rfl := Option.some.inj he
      exact hUnique r hr h2
  have hflat : (team_forms_from_norm "florida international").flatMap (indexLookup canonical) =
      indexLookup canonical "florida international" := by
    rw [hforms]
    simp
  obtain ⟨c, hc, hcmem, hcid⟩ :=
    dedupByCid_const (indexLookup canonical "florida international") ci
      (List.ne_nil_of_mem hin) hall
  have hres : resolve_team_name_to_canonical "Florida International" canonical m =
      some (c.1, c.2.1) := by
    simp only [resolve_team_name_to_canonical, hn, hflat, hc]
    rw [if_neg (by decide : ¬("florida international" : String) = "")]
  constructor
  · exact ⟨c.2.1, by rw [hres, hcid]⟩
  · intro t hcontra
    rw [hres, hcid] at hcontra
    exact hDistinct (((Prod.mk.injEq _ _ _ _).mp (Option.some.inj hcontra)).1.symm)

/-- The "Florida" registry row of the end-to-end disambiguation scenario. -/
def flRow : TeamRow := ⟨"florida", 1, "Florida", ""⟩

/-- The "Florida International" registry row of the same scenario. -/
def fiuRow : TeamRow := ⟨"florida-international", 2, "Florida International", ""⟩

/-- Claim C4 witness: the two-row registry `[Florida, Florida International]`
resolves "Florida International" to the Florida International row, never to
Florida. -/
theorem resolve_florida_international_c4_witness :
    flRow ∈ [flRow, fiuRow] ∧ flRow.team_name = "Florida" ∧ flRow.canonical_id = "florida" ∧
    fiuRow ∈ [flRow, fiuRow] ∧ fiuRow.team_name = "Florida International" ∧
    fiuRow.canonical_id = "florida-international" ∧
    strTrim "florida-international" = "florida-international" ∧
    ("florida-international" : String) ≠ "" ∧ ("florida" : String) ≠ "florida-international" ∧
    (∀ r ∈ [flRow, fiuRow],
      "florida international" ∈ team_forms_from_norm (normalize_team_name (strTrim r.team_name)) →
      strTrim r.canonical_id = "florida-international") ∧
    ((∃ t : ℤ, resolve_team_name_to_canonical "Florida International" [flRow, fiuRow] [] =
        some ("florida-international", t))
      ∧ ∀ t : ℤ, resolve_team_name_to_canonical "Florida International" [flRow, fiuRow] [] ≠
        some ("florida", t)) :=
  ⟨List.mem_cons_self _ _, rfl, rfl, List.mem_cons.mpr (Or.inr (List.mem_cons_self _ _)), rfl,
    rfl, by decide, by decide, by decide, by decide,
    resolve_florida_international_c4 [flRow, fiuRow] [] flRow fiuRow "florida"
      "florida-international" (List.mem_cons_self _ _) rfl rfl
      (List.mem_cons.mpr (Or.inr (List.mem_cons_self _ _))) rfl rfl
      (by decide) (by decide) (by decide) (by decide)⟩
